import Mathlib

/-!
Verification of the archMass scene-state engine (`src/store.ts`, `src/types.ts`,
`src/utils/solar.ts`).

The TypeScript store is shallowly embedded: the zustand store slice that the
verified operations read or write becomes the record `AppState`, each store
action becomes a pure function `AppState → AppState`, and JavaScript numbers
are modelled as exact rationals (`ℚ`) for the geometric/state code and as real
numbers (`ℝ`) for the trigonometric solar calculator.  Actions that call
`uuidv4()` take the freshly generated id(s) as explicit parameters.
-/

set_option maxHeartbeats 1000000

namespace ArchMass

/-- A 3-component vector, the embedding of the `[number, number, number]`
tuples of `types.ts`. -/
@[ext]
structure V3 where
  x : ℚ
  y : ℚ
  z : ℚ
deriving DecidableEq, Repr

/-- `ShapeType` from `types.ts`. -/
inductive ShapeType where
  | box | sphere | cylinder | cone | plane | tree | custom | image | model | group
deriving DecidableEq, Repr

/-- `ShapeData` from `types.ts`.  Optional TypeScript fields become `Option`s. -/
@[ext]
structure ShapeData where
  id : String
  name : String
  type : ShapeType
  parentId : Option String := none
  collapsed : Option Bool := none
  position : V3
  rotation : V3
  scale : V3
  points : Option (List V3) := none
  extrudeDepth : Option ℚ := none
  imageUrl : Option String := none
  aspectRatio : Option ℚ := none
  modelUrl : Option String := none
  modelNodeName : Option String := none
  color : String
  secondaryColor : Option String := none
  opacity : ℚ
  visible : Bool
  locked : Bool
  wireframe : Bool
  edges : Bool
  edgeColor : String
deriving DecidableEq, Repr

/-- The `history` field of the store: bounded undo/redo stacks of whole
shape-collection snapshots. -/
@[ext]
structure HistoryState where
  past : List (List ShapeData)
  future : List (List ShapeData)
deriving DecidableEq, Repr

/-- The slice of the zustand `AppState` that the verified operations read or
write (shape collection, selection, clipboard, history, digitizer state). -/
@[ext]
structure AppState where
  shapes : List ShapeData
  selectedIds : List String
  clipboard : Option ShapeData
  history : HistoryState
  isDrawing : Bool
  drawingPoints : List V3
deriving DecidableEq, Repr

/-- `snapshot()` (store.ts:188-197): push the current shape collection onto
`past`, evict the oldest entry when the stack exceeds 10, clear `future`. -/
def snapshot (st : AppState) : AppState :=
  let newPast := st.history.past ++ [st.shapes]
  let newPast := if newPast.length > 10 then newPast.drop 1 else newPast
  { st with history := { past := newPast, future := [] } }

/-- `undo()` (store.ts:199-212): no-op on empty `past`; otherwise restore the
most recent past snapshot, clear the selection, and push the replaced
collection onto the front of `future`. -/
def undo (st : AppState) : AppState :=
  match st.history.past.getLast? with
  | none => st
  | some previous =>
    { st with
      shapes := previous
      selectedIds := []
      history :=
        { past := st.history.past.dropLast
          future := st.shapes :: st.history.future } }

/-- `redo()` (store.ts:214-227): no-op on empty `future`; otherwise restore the
first future snapshot, clear the selection, and append the replaced collection
to `past`. -/
def redo (st : AppState) : AppState :=
  match st.history.future with
  | [] => st
  | next :: rest =>
    { st with
      shapes := next
      selectedIds := []
      history :=
        { past := st.history.past ++ [st.shapes]
          future := rest } }

/-- The common shape of every snapshotting mutator in the store: call
`snapshot()` first, then replace the shape collection.  (Each concrete mutator
additionally rewrites the selection or tool flags, which `undo`/`redo` do not
read; the undo/redo theorems quantify over all such post-states.) -/
def snapshotThenSet (newShapes : List ShapeData) (st : AppState) : AppState :=
  { snapshot st with shapes := newShapes }

/-- `copy()` (store.ts:229-236): capture the first selected shape (if any) in
the single-slot clipboard. -/
def copy (st : AppState) : AppState :=
  match st.selectedIds with
  | [] => st
  | firstId :: _ =>
    match st.shapes.find? (fun s => s.id = firstId) with
    | none => st
    | some shape => { st with clipboard := some shape }

/-- `Partial<ShapeData>` as consumed by `updateShape`: every field optionally
present.  For fields that are themselves optional in `ShapeData`, a present
entry carries the new `Option` value (a JavaScript spread overwrites with
`undefined` when the key is present). -/
structure ShapePatch where
  id : Option String := none
  name : Option String := none
  type : Option ShapeType := none
  parentId : Option (Option String) := none
  collapsed : Option (Option Bool) := none
  position : Option V3 := none
  rotation : Option V3 := none
  scale : Option V3 := none
  points : Option (Option (List V3)) := none
  extrudeDepth : Option (Option ℚ) := none
  imageUrl : Option (Option String) := none
  aspectRatio : Option (Option ℚ) := none
  modelUrl : Option (Option String) := none
  modelNodeName : Option (Option String) := none
  color : Option String := none
  secondaryColor : Option (Option String) := none
  opacity : Option ℚ := none
  visible : Option Bool := none
  locked : Option Bool := none
  wireframe : Option Bool := none
  edges : Option Bool := none
  edgeColor : Option String := none
deriving DecidableEq, Repr

/-- The spread `{ ...s, ...updates }` of store.ts:363. -/
def mergeShape (s : ShapeData) (u : ShapePatch) : ShapeData :=
  { id := u.id.getD s.id
    name := u.name.getD s.name
    type := u.type.getD s.type
    parentId := u.parentId.getD s.parentId
    collapsed := u.collapsed.getD s.collapsed
    position := u.position.getD s.position
    rotation := u.rotation.getD s.rotation
    scale := u.scale.getD s.scale
    points := u.points.getD s.points
    extrudeDepth := u.extrudeDepth.getD s.extrudeDepth
    imageUrl := u.imageUrl.getD s.imageUrl
    aspectRatio := u.aspectRatio.getD s.aspectRatio
    modelUrl := u.modelUrl.getD s.modelUrl
    modelNodeName := u.modelNodeName.getD s.modelNodeName
    color := u.color.getD s.color
    secondaryColor := u.secondaryColor.getD s.secondaryColor
    opacity := u.opacity.getD s.opacity
    visible := u.visible.getD s.visible
    locked := u.locked.getD s.locked
    wireframe := u.wireframe.getD s.wireframe
    edges := u.edges.getD s.edges
    edgeColor := u.edgeColor.getD s.edgeColor }

/-- `updateShape(id, updates)` (store.ts:362-364): shallow-merge the patch into
every shape whose id matches; no history snapshot. -/
def updateShape (id : String) (u : ShapePatch) (st : AppState) : AppState :=
  { st with shapes := st.shapes.map (fun s => if s.id = id then mergeShape s u else s) }

/-- `duplicateSelected(withOffset)` (store.ts:242-288).  `fresh k` stands for
the `k`-th `uuidv4()` call made during the operation. -/
def duplicateSelected (withOffset : Bool) (fresh : Nat → String) (st : AppState) : AppState :=
  match st.selectedIds with
  | [] => st
  | _ :: _ =>
    let st1 := snapshot st
    let itemsToClone := st.shapes.filter (fun s => st.selectedIds.contains s.id)
    let offset : ℚ := if withOffset then 2 else 0
    let step := fun (acc : List ShapeData × List String × Nat) (item : ShapeData) =>
      let newId := fresh acc.2.2
      let clone : ShapeData :=
        { item with
          id := newId
          name := item.name ++ " (Copy)"
          position :=
            ⟨item.position.x + offset, item.position.y, item.position.z + offset⟩ }
      let withClone := acc.1 ++ [clone]
      if item.type = ShapeType.group then
        let children := st.shapes.filter (fun s => s.parentId = some item.id)
        let inner := children.foldl
          (fun (acc2 : List ShapeData × Nat) child =>
            (acc2.1 ++ [{ child with id := fresh acc2.2, parentId := some newId }],
             acc2.2 + 1))
          (withClone, acc.2.2 + 1)
        (inner.1, acc.2.1 ++ [newId], inner.2)
      else
        (withClone, acc.2.1 ++ [newId], acc.2.2 + 1)
    let res := itemsToClone.foldl step (st.shapes, [], 0)
    { st1 with shapes := res.1, selectedIds := res.2.1 }

/-- `paste()` (store.ts:238-240): delegates to `duplicateSelected(true)`. -/
def paste (fresh : Nat → String) (st : AppState) : AppState :=
  duplicateSelected true fresh st

/-- The recursive `findDescendants` of `deleteSelected` (store.ts:380-387),
written with explicit fuel (the source recursion terminates because scene
parent chains are acyclic; `st.shapes.length` fuel reaches every descendant,
since a shortest parent-chain never repeats an id). -/
def findDescendants (shapes : List ShapeData) : Nat → String → List String
  | 0, _ => []
  | fuel + 1, parentId =>
    (shapes.filter (fun s => s.parentId = some parentId)).flatMap
      (fun s => s.id :: findDescendants shapes fuel s.id)

/-- The `idsToDelete` set of `deleteSelected` (store.ts:377-389): the selected
ids together with all of their descendants. -/
def idsToDelete (st : AppState) : List String :=
  st.selectedIds ++ st.selectedIds.flatMap (findDescendants st.shapes st.shapes.length)

/-- `deleteSelected()` (store.ts:374-396): snapshot, then remove every shape
whose id is selected or a descendant of a selected id, and clear selection. -/
def deleteSelected (st : AppState) : AppState :=
  let st1 := snapshot st
  { st1 with
    shapes := st.shapes.filter (fun s => ¬ (idsToDelete st).contains s.id)
    selectedIds := [] }

/-- The group `ShapeData` literal of store.ts:414-429. -/
def mkGroupShape (groupId : String) (centroid : V3) : ShapeData :=
  { id := groupId
    name := "Group"
    type := ShapeType.group
    position := centroid
    rotation := ⟨0, 0, 0⟩
    scale := ⟨1, 1, 1⟩
    color := "#ffffff"
    opacity := 1
    visible := true
    locked := false
    wireframe := false
    edges := false
    edgeColor := "#000000"
    collapsed := some false }

/-- `groupSelected()` (store.ts:398-451).  `groupId` stands for the fresh
`uuidv4()`.  The centroid is the arithmetic mean of the selected shapes'
positions (`THREE.Vector3.add`/`divideScalar`). -/
def groupSelected (groupId : String) (st : AppState) : AppState :=
  if st.selectedIds.length < 2 then st
  else
    let st1 := snapshot st
    let selectedShapes := st.shapes.filter (fun s => st.selectedIds.contains s.id)
    let total := selectedShapes.foldl
      (fun (acc : V3) s => ⟨acc.x + s.position.x, acc.y + s.position.y, acc.z + s.position.z⟩)
      ⟨0, 0, 0⟩
    let n : ℚ := selectedShapes.length
    let centroid : V3 := ⟨total.x / n, total.y / n, total.z / n⟩
    let updatedShapes := st.shapes.map (fun s =>
      if st.selectedIds.contains s.id then
        { s with
          parentId := some groupId
          position :=
            ⟨s.position.x - centroid.x, s.position.y - centroid.y, s.position.z - centroid.z⟩ }
      else s)
    { st1 with
      shapes := updatedShapes ++ [mkGroupShape groupId centroid]
      selectedIds := [groupId] }

/-- `ungroupSelected()` (store.ts:453-486): requires exactly one selected shape
of type `group`; restores each direct child to world coordinates, clears its
`parentId`, removes the group shape, and selects the children. -/
def ungroupSelected (st : AppState) : AppState :=
  match st.selectedIds with
  | [onlyId] =>
    match st.shapes.find? (fun s => s.id = onlyId) with
    | none => st
    | some grp =>
      if grp.type = ShapeType.group then
        let st1 := snapshot st
        let groupPos := grp.position
        let newSelection :=
          (st.shapes.filter (fun s => s.parentId = some grp.id)).map (fun s => s.id)
        let updatedShapes :=
          (st.shapes.map (fun s =>
            if s.parentId = some grp.id then
              { s with
                parentId := none
                position :=
                  ⟨s.position.x + groupPos.x, s.position.y + groupPos.y,
                   s.position.z + groupPos.z⟩ }
            else s)).filter (fun s => s.id ≠ grp.id)
        { st1 with shapes := updatedShapes, selectedIds := newSelection }
      else st
  | _ => st

/-- `setIsDrawing(isDrawing)` (store.ts:494): sets the flag and unconditionally
clears both the drawing-point buffer and the selection. -/
def setIsDrawing (isDrawing : Bool) (st : AppState) : AppState :=
  { st with isDrawing := isDrawing, drawingPoints := [], selectedIds := [] }

/-- `addDrawingPoint(point)` (store.ts:497-508): append unless within 0.01
XZ-distance of the last accepted point (compared on squared distance to stay
within exact rational arithmetic: `dist < 0.01 ↔ dist² < 0.0001` for
non-negative distances). -/
def addDrawingPoint (point : V3) (st : AppState) : AppState :=
  match st.drawingPoints.getLast? with
  | some last =>
    let distSq := (point.x - last.x) ^ 2 + (point.z - last.z) ^ 2
    if distSq < (1 / 100 : ℚ) ^ 2 then st
    else { st with drawingPoints := st.drawingPoints ++ [point] }
  | none => { st with drawingPoints := st.drawingPoints ++ [point] }

/-- `count.toString().padStart(2, '0')` as used for default shape names. -/
def padTwo (n : Nat) : String :=
  if n < 10 then "0" ++ toString n else toString n

/-- The custom-surface `ShapeData` literal of store.ts:537-553. -/
def mkCustomShape (newId : String) (count : Nat) (anchor : V3) (pts : List V3) : ShapeData :=
  { id := newId
    name := "Surface " ++ padTwo count
    type := ShapeType.custom
    position := anchor
    rotation := ⟨0, 0, 0⟩
    scale := ⟨1, 1, 1⟩
    points := some pts
    extrudeDepth := some 0
    color := "#cbd5e1"
    opacity := 1
    visible := true
    locked := false
    wireframe := false
    edges := true
    edgeColor := "#1e293b" }

/-- `finishDrawing()` (store.ts:510-561): no-op below 3 points; otherwise
snapshot, compute the XZ axis-aligned bounding box of the buffer, anchor the
new `custom` shape at the box midpoint, and store the points translated so the
anchor is their origin.  (The source folds `min`/`max` from `±Infinity` over a
buffer the guard has proved non-empty; the embedding folds from the first
point, which yields the same bounds.)  `newId` stands for the `uuidv4()`. -/
def finishDrawing (newId : String) (st : AppState) : AppState :=
  match st.drawingPoints with
  | [] => st
  | [_] => st
  | [_, _] => st
  | p0 :: p1 :: p2 :: rest =>
    let st1 := snapshot st
    let pts := p0 :: p1 :: p2 :: rest
    let tail := p1 :: p2 :: rest
    let minX := tail.foldl (fun acc p => min acc p.x) p0.x
    let maxX := tail.foldl (fun acc p => max acc p.x) p0.x
    let minZ := tail.foldl (fun acc p => min acc p.z) p0.z
    let maxZ := tail.foldl (fun acc p => max acc p.z) p0.z
    let centerX := (minX + maxX) / 2
    let centerZ := (minZ + maxZ) / 2
    let normalizedPoints := pts.map (fun p => (⟨p.x - centerX, 0, p.z - centerZ⟩ : V3))
    let count := (st.shapes.filter (fun s => s.type = ShapeType.custom)).length + 1
    let newShape := mkCustomShape newId count ⟨centerX, 0, centerZ⟩ normalizedPoints
    { st1 with
      shapes := st.shapes ++ [newShape]
      selectedIds := [newId]
      isDrawing := false
      drawingPoints := [] }

/-- `cancelDrawing()` (store.ts:563). -/
def cancelDrawing (st : AppState) : AppState :=
  { st with isDrawing := false, drawingPoints := [] }

/-! The solar calculator (`src/utils/solar.ts`) is floating-point trigonometry;
it is embedded over the real numbers in the idealized (exact) semantics. -/

/-- `toRad` (solar.ts:3). -/
noncomputable def toRad (deg : ℝ) : ℝ := deg * Real.pi / 180

/-- `toDeg` (solar.ts:4). -/
noncomputable def toDeg (rad : ℝ) : ℝ := rad * 180 / Real.pi

/-- The record returned by `getSunPosition`. -/
structure SunPosition where
  altitude : ℝ
  azimuth : ℝ
  declination : ℝ
  x : ℝ
  y : ℝ
  z : ℝ

/-- `getSunPosition(lat, lon, date, utcHour)` (solar.ts:6-48). -/
noncomputable def getSunPosition (lat lon date utcHour : ℝ) : SunPosition :=
  let declination := 23.45 * Real.sin (toRad ((360 / 365) * (date - 81)))
  let B := toRad ((360 / 365) * (date - 81))
  let eot := 9.87 * Real.sin (2 * B) - 7.53 * Real.cos B - 1.5 * Real.sin B
  let localSolarTime := utcHour + lon / 15 + eot / 60
  let timeOffset := 15 * (localSolarTime - 12)
  let sinAlt := Real.sin (toRad lat) * Real.sin (toRad declination) +
                Real.cos (toRad lat) * Real.cos (toRad declination) * Real.cos (toRad timeOffset)
  let alt := Real.arcsin sinAlt
  let cosAz := (Real.sin (toRad declination) * Real.cos (toRad lat) -
                Real.cos (toRad declination) * Real.sin (toRad lat) *
                  Real.cos (toRad timeOffset)) / Real.cos alt
  let az0 := Real.arccos (min 1 (max (-1) cosAz))
  let az := if Real.sin (toRad timeOffset) > 0 then 2 * Real.pi - az0 else az0
  { altitude := alt
    azimuth := az
    declination := declination
    x := Real.sin az * Real.cos alt
    y := Real.sin alt
    z := Real.cos az * Real.cos alt }

/-! ### Spec-side definitions and concrete fixtures -/

/-- Spec-side transitive reachability over the `parentId` relation:
`Reaches shapes r i` holds when `i = r`, or `i` is the id of a shape in
`shapes` whose `parentId` chain leads back to `r`. -/
inductive Reaches (shapes : List ShapeData) : String → String → Prop
  | refl (i : String) : Reaches shapes i i
  | step {r j : String} (s : ShapeData) :
      Reaches shapes r j → s ∈ shapes → s.parentId = some j → Reaches shapes r s.id

/-- Spec-side deletion closure: the transitive closure of the selected ids over
the `parentId` relation. -/
def InClosure (shapes : List ShapeData) (sel : List String) (i : String) : Prop :=
  ∃ r ∈ sel, Reaches shapes r i

/-- Length-indexed reachability (chains of exactly `n` parent steps), used to
relate `Reaches` to the fuelled `findDescendants`. -/
inductive ReachesN (shapes : List ShapeData) : Nat → String → String → Prop
  | refl (i : String) : ReachesN shapes 0 i i
  | step {n : Nat} {r j : String} (s : ShapeData) :
      ReachesN shapes n r j → s ∈ shapes → s.parentId = some j →
      ReachesN shapes (n + 1) r s.id

/-- The default box of the store's initial state (store.ts:107-123). -/
def box01 : ShapeData :=
  { id := "default-box"
    name := "Box 01"
    type := ShapeType.box
    position := ⟨0, 1/2, 0⟩
    rotation := ⟨0, 0, 0⟩
    scale := ⟨1, 1, 1⟩
    color := "#e2e8f0"
    opacity := 1
    visible := true
    locked := false
    wireframe := false
    edges := true
    edgeColor := "#1e293b" }

/-- The store's initial state restricted to the verified slice. -/
def initState : AppState :=
  { shapes := [box01]
    selectedIds := []
    clipboard := none
    history := ⟨[], []⟩
    isDrawing := false
    drawingPoints := [] }

/-- A plain box fixture for concrete witnesses. -/
def mkBox (i : String) (p : V3) : ShapeData :=
  { box01 with id := i, name := i, position := p }

/-- Fixture: scene with boxes `"A"` at world (1,0,0) and `"B"` at world
(3,0,0), both selected. -/
def stTwo : AppState :=
  { initState with
    shapes := [mkBox "A" ⟨1, 0, 0⟩, mkBox "B" ⟨3, 0, 0⟩]
    selectedIds := ["A", "B"] }

/-- Fixture: digitizer buffer [(0,0,0), (2,0,0), (2,0,2), (0,0,2)]. -/
def stDraw : AppState :=
  { initState with
    isDrawing := true
    drawingPoints := [⟨0, 0, 0⟩, ⟨2, 0, 0⟩, ⟨2, 0, 2⟩, ⟨0, 0, 2⟩] }

/-! ### Theorems -/

/-- After `snapshot`, the top of the `past` stack is the pre-mutation shape
collection, whether or not the oldest entry was evicted. -/
theorem snapshot_past_getLast (st : AppState) :
    (snapshot st).history.past.getLast? = some st.shapes := by
  have hdef : (snapshot st).history.past =
      if (st.history.past ++ [st.shapes]).length > 10
      then (st.history.past ++ [st.shapes]).drop 1
      else st.history.past ++ [st.shapes] := rfl
  rw [hdef]
  split
  next h =>
    cases hp : st.history.past with
    | nil => rw [hp] at h; simp at h
    | cons a l =>
      simp only [List.cons_append, List.drop_succ_cons, List.drop_zero]
      exact List.getLast?_concat _
  next h => exact List.getLast?_concat _

/-- After `snapshot`, the `future` stack is empty. -/
theorem snapshot_future (st : AppState) : (snapshot st).history.future = [] := rfl

/-- C1: for every scene state `st` and every mutation that first calls
`snapshot()` and then replaces the shape collection (its post-state `stMut`
carries exactly the history produced by `snapshot st`), `undo()` restores the
pre-mutation collection id-for-id and field-for-field, and a subsequent
`redo()` restores the post-mutation collection. -/
theorem undo_redo_inverse (st stMut : AppState)
    (h : stMut.history = (snapshot st).history) :
    (undo stMut).shapes = st.shapes ∧ (redo (undo stMut)).shapes = stMut.shapes := by
  have hlast : stMut.history.past.getLast? = some st.shapes := by
    rw [h]; exact snapshot_past_getLast st
  have hfut : stMut.history.future = [] := by
    rw [h]; rfl
  have hundo : undo stMut =
      { stMut with
        shapes := st.shapes
        selectedIds := []
        history :=
          { past := stMut.history.past.dropLast
            future := stMut.shapes :: stMut.history.future } } := by
    unfold undo
    rw [hlast]
  rw [hundo, hfut]
  exact ⟨rfl, rfl⟩

/-- C1 witness: a concrete mutation (deleting the default box's collection)
after a snapshot, undone and redone. -/
theorem undo_redo_inverse_witness :
    (snapshotThenSet [] initState).history = (snapshot initState).history ∧
    (undo (snapshotThenSet [] initState)).shapes = initState.shapes ∧
    (redo (undo (snapshotThenSet [] initState))).shapes =
      (snapshotThenSet [] initState).shapes :=
  ⟨rfl, undo_redo_inverse initState (snapshotThenSet [] initState) rfl⟩

/-- C4: starting from an empty history, eleven successive snapshot-then-mutate
operations leave `past` holding exactly the ten pre-states of operations 2-11
in order (operation 1's pre-state, the initial collection, is evicted); and a
`snapshot()` call never grows a `past` of at most ten entries beyond ten. -/
theorem history_bound (st0 : AppState) (h0 : st0.history.past = [])
    (m1 m2 m3 m4 m5 m6 m7 m8 m9 m10 m11 : List ShapeData) :
    (snapshotThenSet m11 (snapshotThenSet m10 (snapshotThenSet m9 (snapshotThenSet m8
      (snapshotThenSet m7 (snapshotThenSet m6 (snapshotThenSet m5 (snapshotThenSet m4
        (snapshotThenSet m3 (snapshotThenSet m2
          (snapshotThenSet m1 st0))))))))))).history.past
      = [m1, m2, m3, m4, m5, m6, m7, m8, m9, m10] ∧
    ∀ st : AppState, st.history.past.length ≤ 10 →
      (snapshot st).history.past.length ≤ 10 := by
  constructor
  · simp [snapshotThenSet, snapshot, h0]
  · intro st hlen
    have hdef : (snapshot st).history.past =
        if (st.history.past ++ [st.shapes]).length > 10
        then (st.history.past ++ [st.shapes]).drop 1
        else st.history.past ++ [st.shapes] := rfl
    rw [hdef]
    split
    next h =>
      simp only [List.length_drop, List.length_append, List.length_singleton]
      omega
    next h =>
      simp only [List.length_append, List.length_singleton] at h ⊢
      omega

/-- C4 witness: the eleven-operation scenario run from the initial store
state, with operation `k` installing a collection of `k` copies of the default
box. -/
theorem history_bound_witness :
    initState.history.past = [] ∧
    (snapshotThenSet (List.replicate 11 box01) (snapshotThenSet (List.replicate 10 box01)
      (snapshotThenSet (List.replicate 9 box01) (snapshotThenSet (List.replicate 8 box01)
        (snapshotThenSet (List.replicate 7 box01) (snapshotThenSet (List.replicate 6 box01)
          (snapshotThenSet (List.replicate 5 box01) (snapshotThenSet (List.replicate 4 box01)
            (snapshotThenSet (List.replicate 3 box01) (snapshotThenSet (List.replicate 2 box01)
              (snapshotThenSet (List.replicate 1 box01) initState))))))))))).history.past
      = [List.replicate 1 box01, List.replicate 2 box01, List.replicate 3 box01,
         List.replicate 4 box01, List.replicate 5 box01, List.replicate 6 box01,
         List.replicate 7 box01, List.replicate 8 box01, List.replicate 9 box01,
         List.replicate 10 box01] :=
  ⟨rfl,
    (history_bound initState rfl (List.replicate 1 box01) (List.replicate 2 box01)
      (List.replicate 3 box01) (List.replicate 4 box01) (List.replicate 5 box01)
      (List.replicate 6 box01) (List.replicate 7 box01) (List.replicate 8 box01)
      (List.replicate 9 box01) (List.replicate 10 box01) (List.replicate 11 box01)).1⟩

/-- C9: with fewer than three accumulated drawing points, `finishDrawing()` is
a complete no-op: no shape is created and the shape collection, selection,
drawing buffer, drawing-mode flag and both history stacks are left exactly
unchanged, with no error signalled. -/
theorem finishDrawing_noop (newId : String) (st : AppState)
    (h : st.drawingPoints.length < 3) : finishDrawing newId st = st := by
  unfold finishDrawing
  cases hp : st.drawingPoints with
  | nil => rfl
  | cons p0 t0 =>
    cases t0 with
    | nil => rfl
    | cons p1 t1 =>
      cases t1 with
      | nil => rfl
      | cons p2 t2 =>
        rw [hp] at h
        simp at h
        omega

/-- C9 witness: `finishDrawing` on the initial state (empty buffer) is the
identity. -/
theorem finishDrawing_noop_witness :
    initState.drawingPoints.length < 3 ∧ finishDrawing "fresh-id" initState = initState :=
  ⟨by decide, finishDrawing_noop "fresh-id" initState (by decide)⟩

/-- C10: `setIsDrawing(b)` sets the drawing-mode flag to `b` and, for either
value of `b`, unconditionally empties the drawing-point buffer and the
selection set, leaving shapes, history and clipboard untouched. -/
theorem setIsDrawing_spec (b : Bool) (st : AppState) :
    (setIsDrawing b st).isDrawing = b ∧
    (setIsDrawing b st).drawingPoints = [] ∧
    (setIsDrawing b st).selectedIds = [] ∧
    (setIsDrawing b st).shapes = st.shapes ∧
    (setIsDrawing b st).history = st.history ∧
    (setIsDrawing b st).clipboard = st.clipboard :=
  ⟨rfl, rfl, rfl, rfl, rfl, rfl⟩

/-- C7: `paste()` is exactly `duplicateSelected(true)` on the live selection:
the two produce identical states, an empty selection makes `paste` a no-op
whatever the clipboard holds, and the clipboard contents never influence the
result (they are carried through unread). -/
theorem paste_eq_duplicateSelected (fresh : Nat → String) (st : AppState)
    (cb : Option ShapeData) :
    paste fresh st = duplicateSelected true fresh st ∧
    (st.selectedIds = [] → paste fresh { st with clipboard := cb } = { st with clipboard := cb }) ∧
    paste fresh { st with clipboard := cb } = { paste fresh st with clipboard := cb } := by
  obtain ⟨shs, sel, clip, hist, isD, pts⟩ := st
  refine ⟨rfl, ?_, ?_⟩
  · intro h
    cases sel with
    | nil => rfl
    | cons a l => simp at h
  · cases sel with
    | nil => rfl
    | cons a l => rfl

/-- C7 witness: on the initial state (empty selection) with a stale clipboard
entry, `paste` equals `duplicateSelected(true)` and leaves the state
unchanged. -/
theorem paste_eq_duplicateSelected_witness :
    initState.selectedIds = [] ∧
    paste (fun _ => "fresh-id") { initState with clipboard := some box01 } =
      { initState with clipboard := some box01 } :=
  ⟨rfl,
    (paste_eq_duplicateSelected (fun _ => "fresh-id") initState (some box01)).2.1 rfl⟩

/-- C3 counterexample: `updateShape` performs no clamping: updating the default
box's opacity to 2 stores 2, which violates the claimed [0,1] invariant. -/
theorem updateShape_opacity_not_clamped :
    ((updateShape "default-box" { opacity := some 2 } initState).shapes.map
      (fun s => s.opacity)) = [2] ∧
    ¬ (∀ s ∈ (updateShape "default-box" { opacity := some 2 } initState).shapes,
        s.opacity ≤ 1) := by
  exact ⟨rfl, by decide⟩

/-- C3 amended: `updateShape(id, partial)` stores an opacity contained in the
patch verbatim, with no clamping to [0,1]: every resulting shape whose id
matches carries exactly the patch's opacity value (for patches that do not
rewrite the id). -/
theorem updateShape_opacity_verbatim (st : AppState) (i : String) (u : ShapePatch)
    (v : ℚ) (hop : u.opacity = some v) :
    ∀ s ∈ (updateShape i u st).shapes, s.id = i → s.opacity = v := by
  intro s hs hsi
  simp only [updateShape, List.mem_map] at hs
  obtain ⟨t, _, hts⟩ := hs
  by_cases h : t.id = i
  · rw [if_pos h] at hts
    rw [← hts]
    simp [mergeShape, hop]
  · rw [if_neg h] at hts
    rw [← hts] at hsi
    exact absurd hsi h

/-- C3 amended witness: updating the default box's opacity to 2 stores exactly
2. -/
theorem updateShape_opacity_verbatim_witness :
    ({ opacity := some 2 } : ShapePatch).opacity = some 2 ∧
    ∀ s ∈ (updateShape "default-box" { opacity := some 2 } initState).shapes,
      s.id = "default-box" → s.opacity = 2 :=
  ⟨rfl, updateShape_opacity_verbatim initState "default-box" { opacity := some 2 } 2 rfl⟩

/-- A left fold of `min` never exceeds its initial accumulator. -/
theorem foldl_min_le_init (l : List ℚ) (a : ℚ) : l.foldl min a ≤ a := by
  induction l generalizing a with
  | nil => exact le_refl a
  | cons x xs ih => exact le_trans (ih (min a x)) (min_le_left a x)

/-- A left fold of `min` is a lower bound for every list member. -/
theorem foldl_min_le_mem : ∀ (l : List ℚ) (a x : ℚ), x ∈ l → l.foldl min a ≤ x := by
  intro l
  induction l with
  | nil => intro a x hx; cases hx
  | cons y ys ih =>
    intro a x hx
    rcases List.mem_cons.mp hx with h | h
    · subst h
      exact le_trans (foldl_min_le_init ys (min a x)) (min_le_right a x)
    · exact ih (min a y) x h

/-- A left fold of `min` is attained: it equals the initial accumulator or a
list member. -/
theorem foldl_min_attained (l : List ℚ) (a : ℚ) :
    l.foldl min a = a ∨ l.foldl min a ∈ l := by
  induction l generalizing a with
  | nil => exact Or.inl rfl
  | cons x xs ih =>
    rcases ih (min a x) with h | h
    · rcases min_cases a x with ⟨hm, _⟩ | ⟨hm, _⟩
      · exact Or.inl (by rw [List.foldl_cons, h, hm])
      · exact Or.inr (by rw [List.foldl_cons, h, hm]; exact List.mem_cons_self x xs)
    · exact Or.inr (List.mem_cons_of_mem x h)

/-- A left fold of `max` is at least its initial accumulator. -/
theorem le_foldl_max_init (l : List ℚ) (a : ℚ) : a ≤ l.foldl max a := by
  induction l generalizing a with
  | nil => exact le_refl a
  | cons x xs ih => exact le_trans (le_max_left a x) (ih (max a x))

/-- A left fold of `max` is an upper bound for every list member. -/
theorem mem_le_foldl_max : ∀ (l : List ℚ) (a x : ℚ), x ∈ l → x ≤ l.foldl max a := by
  intro l
  induction l with
  | nil => intro a x hx; cases hx
  | cons y ys ih =>
    intro a x hx
    rcases List.mem_cons.mp hx with h | h
    · subst h
      exact le_trans (le_max_right a x) (le_foldl_max_init ys (max a x))
    · exact ih (max a y) x h

/-- A left fold of `max` is attained: it equals the initial accumulator or a
list member. -/
theorem foldl_max_attained (l : List ℚ) (a : ℚ) :
    l.foldl max a = a ∨ l.foldl max a ∈ l := by
  induction l generalizing a with
  | nil => exact Or.inl rfl
  | cons x xs ih =>
    rcases ih (max a x) with h | h
    · rcases max_cases a x with ⟨hm, _⟩ | ⟨hm, _⟩
      · exact Or.inl (by rw [List.foldl_cons, h, hm])
      · exact Or.inr (by rw [List.foldl_cons, h, hm]; exact List.mem_cons_self x xs)
    · exact Or.inr (List.mem_cons_of_mem x h)

/-- C5: with at least three buffered points, `finishDrawing()` computes the XZ
axis-aligned bounding box of the buffer (bounds both valid and attained),
anchors the created `custom` shape at the box midpoint, stores the points
translated by that anchor (Y staying 0), appends exactly that one shape, and
selects it. -/
theorem finishDrawing_bbox (newId : String) (st : AppState)
    (h3 : 3 ≤ st.drawingPoints.length) :
    ∃ loX hiX loZ hiZ : ℚ,
      (∀ p ∈ st.drawingPoints, loX ≤ p.x ∧ p.x ≤ hiX ∧ loZ ≤ p.z ∧ p.z ≤ hiZ) ∧
      ((∃ p ∈ st.drawingPoints, p.x = loX) ∧ (∃ p ∈ st.drawingPoints, p.x = hiX) ∧
        (∃ p ∈ st.drawingPoints, p.z = loZ) ∧ (∃ p ∈ st.drawingPoints, p.z = hiZ)) ∧
      (finishDrawing newId st).shapes =
        st.shapes ++ [mkCustomShape newId
          ((st.shapes.filter (fun s => s.type = ShapeType.custom)).length + 1)
          ⟨(loX + hiX) / 2, 0, (loZ + hiZ) / 2⟩
          (st.drawingPoints.map (fun p =>
            (⟨p.x - (loX + hiX) / 2, 0, p.z - (loZ + hiZ) / 2⟩ : V3)))] ∧
      (finishDrawing newId st).selectedIds = [newId] ∧
      (finishDrawing newId st).isDrawing = false ∧
      (finishDrawing newId st).drawingPoints = [] := by
  obtain ⟨p0, p1, p2, rest, hp⟩ :
      ∃ p0 p1 p2 rest, st.drawingPoints = p0 :: p1 :: p2 :: rest := by
    cases hd : st.drawingPoints with
    | nil => rw [hd] at h3; simp at h3
    | cons a t0 =>
      cases t0 with
      | nil => rw [hd] at h3; simp at h3
      | cons b t1 =>
        cases t1 with
        | nil => rw [hd] at h3; simp at h3
        | cons c t2 => exact ⟨a, b, c, t2, rfl⟩
  refine ⟨(p1 :: p2 :: rest).foldl (fun acc p => min acc p.x) p0.x,
    (p1 :: p2 :: rest).foldl (fun acc p => max acc p.x) p0.x,
    (p1 :: p2 :: rest).foldl (fun acc p => min acc p.z) p0.z,
    (p1 :: p2 :: rest).foldl (fun acc p => max acc p.z) p0.z,
    ?_, ⟨?_, ?_, ?_, ?_⟩, ?_, ?_, ?_, ?_⟩
  · intro p hmem
    rw [hp] at hmem
    have hxm : ∀ q ∈ p1 :: p2 :: rest,
        (p1 :: p2 :: rest).foldl (fun acc r => min acc r.x) p0.x ≤ q.x := by
      intro q hq
      rw [← List.foldl_map (fun r : V3 => r.x) min]
      exact foldl_min_le_mem _ _ _ (List.mem_map_of_mem _ hq)
    have hxM : ∀ q ∈ p1 :: p2 :: rest,
        q.x ≤ (p1 :: p2 :: rest).foldl (fun acc r => max acc r.x) p0.x := by
      intro q hq
      rw [← List.foldl_map (fun r : V3 => r.x) max]
      exact mem_le_foldl_max _ _ _ (List.mem_map_of_mem _ hq)
    have hzm : ∀ q ∈ p1 :: p2 :: rest,
        (p1 :: p2 :: rest).foldl (fun acc r => min acc r.z) p0.z ≤ q.z := by
      intro q hq
      rw [← List.foldl_map (fun r : V3 => r.z) min]
      exact foldl_min_le_mem _ _ _ (List.mem_map_of_mem _ hq)
    have hzM : ∀ q ∈ p1 :: p2 :: rest,
        q.z ≤ (p1 :: p2 :: rest).foldl (fun acc r => max acc r.z) p0.z := by
      intro q hq
      rw [← List.foldl_map (fun r : V3 => r.z) max]
      exact mem_le_foldl_max _ _ _ (List.mem_map_of_mem _ hq)
    rcases List.mem_cons.mp hmem with h | h
    · subst h
      refine ⟨?_, ?_, ?_, ?_⟩
      · rw [← List.foldl_map (fun r : V3 => r.x) min]; exact foldl_min_le_init _ _
      · rw [← List.foldl_map (fun r : V3 => r.x) max]; exact le_foldl_max_init _ _
      · rw [← List.foldl_map (fun r : V3 => r.z) min]; exact foldl_min_le_init _ _
      · rw [← List.foldl_map (fun r : V3 => r.z) max]; exact le_foldl_max_init _ _
    · exact ⟨hxm p h, hxM p h, hzm p h, hzM p h⟩
  · rw [hp, ← List.foldl_map (fun r : V3 => r.x) min]
    rcases foldl_min_attained ((p1 :: p2 :: rest).map (fun r => r.x)) p0.x with h | h
    · exact ⟨p0, List.mem_cons_self _ _, h.symm⟩
    · obtain ⟨q, hq, hqx⟩ := List.mem_map.mp h
      exact ⟨q, List.mem_cons_of_mem _ hq, hqx⟩
  · rw [hp, ← List.foldl_map (fun r : V3 => r.x) max]
    rcases foldl_max_attained ((p1 :: p2 :: rest).map (fun r => r.x)) p0.x with h | h
    · exact ⟨p0, List.mem_cons_self _ _, h.symm⟩
    · obtain ⟨q, hq, hqx⟩ := List.mem_map.mp h
      exact ⟨q, List.mem_cons_of_mem _ hq, hqx⟩
  · rw [hp, ← List.foldl_map (fun r : V3 => r.z) min]
    rcases foldl_min_attained ((p1 :: p2 :: rest).map (fun r => r.z)) p0.z with h | h
    · exact ⟨p0, List.mem_cons_self _ _, h.symm⟩
    · obtain ⟨q, hq, hqz⟩ := List.mem_map.mp h
      exact ⟨q, List.mem_cons_of_mem _ hq, hqz⟩
  · rw [hp, ← List.foldl_map (fun r : V3 => r.z) max]
    rcases foldl_max_attained ((p1 :: p2 :: rest).map (fun r => r.z)) p0.z with h | h
    · exact ⟨p0, List.mem_cons_self _ _, h.symm⟩
    · obtain ⟨q, hq, hqz⟩ := List.mem_map.mp h
      exact ⟨q, List.mem_cons_of_mem _ hq, hqz⟩
  · simp only [finishDrawing, hp]
  · simp only [finishDrawing, hp]
  · simp only [finishDrawing, hp]
  · simp only [finishDrawing, hp]

/-- C5 witness: the buffer [(0,0,0), (2,0,0), (2,0,2), (0,0,2)] finishes into
a custom shape anchored at (1,0,1) with normalized points
[(-1,0,-1), (1,0,-1), (1,0,1), (-1,0,1)]. -/
theorem finishDrawing_bbox_witness :
    3 ≤ stDraw.drawingPoints.length ∧
    (finishDrawing "s1" stDraw).selectedIds = ["s1"] ∧
    (finishDrawing "s1" stDraw).shapes.map (fun s => s.position) =
      [⟨0, 1/2, 0⟩, ⟨1, 0, 1⟩] ∧
    (finishDrawing "s1" stDraw).shapes.map (fun s => s.points) =
      [none, some [⟨-1, 0, -1⟩, ⟨1, 0, -1⟩, ⟨1, 0, 1⟩, ⟨-1, 0, 1⟩]] := by
  refine ⟨by decide, ?_,
    by norm_num [finishDrawing, stDraw, initState, box01, mkCustomShape, min_def, max_def,
      V3.ext_iff],
    by norm_num [finishDrawing, stDraw, initState, box01, mkCustomShape, min_def, max_def,
      V3.ext_iff]⟩
  obtain ⟨loX, hiX, loZ, hiZ, _, _, _, hsel, _, _⟩ :=
    finishDrawing_bbox "s1" stDraw (by decide)
  exact hsel

/-- `Reaches` is transitive. -/
theorem reaches_trans {shapes : List ShapeData} {a b c : String}
    (h1 : Reaches shapes a b) (h2 : Reaches shapes b c) : Reaches shapes a c := by
  induction h2 with
  | refl => exact h1
  | step s hrec hmem hpar ih => exact Reaches.step s ih hmem hpar

/-- Soundness of the fuelled DFS: everything it returns is reachable. -/
theorem reaches_of_mem_findDescendants {shapes : List ShapeData} :
    ∀ (n : Nat) (r i : String), i ∈ findDescendants shapes n r → Reaches shapes r i := by
  intro n
  induction n with
  | zero => intro r i h; simp [findDescendants] at h
  | succ m ih =>
    intro r i h
    simp only [findDescendants, List.mem_flatMap] at h
    obtain ⟨s, hs, hmem⟩ := h
    have hs' := List.mem_filter.mp hs
    have hpar : s.parentId = some r := by simpa using hs'.2
    have hr : Reaches shapes r s.id := Reaches.step s (Reaches.refl r) hs'.1 hpar
    rcases List.mem_cons.mp hmem with h | h
    · rw [h]; exact hr
    · exact reaches_trans hr (ih s.id i h)

/-- A non-empty chain decomposes at its first step. -/
theorem reachesN_succ_front {shapes : List ShapeData} :
    ∀ (n : Nat) {r i : String}, ReachesN shapes (n + 1) r i →
      ∃ s, s ∈ shapes ∧ s.parentId = some r ∧ ReachesN shapes n s.id i := by
  intro n
  induction n with
  | zero =>
    intro r i h
    cases h with
    | step s h0 hmem hpar =>
      cases h0
      exact ⟨s, hmem, hpar, ReachesN.refl s.id⟩
  | succ m ih =>
    intro r i h
    cases h with
    | step s h0 hmem hpar =>
      obtain ⟨t, htmem, htpar, hrt⟩ := ih h0
      exact ⟨t, htmem, htpar, ReachesN.step s hrt hmem hpar⟩

/-- Completeness of the fuelled DFS: a chain of `m + 1 ≤ n` steps is found with
fuel `n`. -/
theorem mem_findDescendants_of_reachesN {shapes : List ShapeData} :
    ∀ (m n : Nat) (r i : String), ReachesN shapes (m + 1) r i → m + 1 ≤ n →
      i ∈ findDescendants shapes n r := by
  intro m
  induction m with
  | zero =>
    intro n r i h hle
    obtain ⟨s, hmem, hpar, h0⟩ := reachesN_succ_front 0 h
    cases h0
    cases n with
    | zero => omega
    | succ k =>
      simp only [findDescendants, List.mem_flatMap]
      exact ⟨s, List.mem_filter.mpr ⟨hmem, by simp [hpar]⟩, List.mem_cons_self _ _⟩
  | succ m' ih =>
    intro n r i h hle
    obtain ⟨s, hmem, hpar, hrest⟩ := reachesN_succ_front (m' + 1) h
    cases n with
    | zero => omega
    | succ k =>
      have hin : i ∈ findDescendants shapes k s.id := ih k s.id i hrest (by omega)
      simp only [findDescendants, List.mem_flatMap]
      exact ⟨s, List.mem_filter.mpr ⟨hmem, by simp [hpar]⟩, List.mem_cons_of_mem _ hin⟩

/-- Every reachability fact is witnessed by a chain of some length. -/
theorem reachesN_of_reaches {shapes : List ShapeData} {r i : String}
    (h : Reaches shapes r i) : ∃ n, ReachesN shapes n r i := by
  induction h with
  | refl => exact ⟨0, ReachesN.refl _⟩
  | step s hrec hmem hpar ih =>
    obtain ⟨n, hn⟩ := ih
    exact ⟨n + 1, ReachesN.step s hn hmem hpar⟩

/-- Chains compose. -/
theorem reachesN_trans {shapes : List ShapeData} {a : Nat} {r j : String} :
    ∀ {b : Nat} {i : String}, ReachesN shapes a r j → ReachesN shapes b j i →
      ReachesN shapes (a + b) r i := by
  intro b
  induction b with
  | zero =>
    intro i h1 h2
    cases h2
    exact h1
  | succ m ih =>
    intro i h1 h2
    cases h2 with
    | step s h0 hmem hpar => exact ReachesN.step s (ih h1 h0) hmem hpar

/-- Chains split at any position. -/
theorem reachesN_split {shapes : List ShapeData} :
    ∀ (b : Nat) {a : Nat} {r i : String}, ReachesN shapes (a + b) r i →
      ∃ j, ReachesN shapes a r j ∧ ReachesN shapes b j i := by
  intro b
  induction b with
  | zero => intro a r i h; exact ⟨i, h, ReachesN.refl i⟩
  | succ m ih =>
    intro a r i h
    cases h with
    | step s h0 hmem hpar =>
      obtain ⟨j, hj1, hj2⟩ := ih h0
      exact ⟨j, hj1, ReachesN.step s hj2 hmem hpar⟩

/-- The endpoint of a non-empty chain is the id of some listed shape. -/
theorem reachesN_succ_endpoint {shapes : List ShapeData} {k : Nat} {r i : String}
    (h : ReachesN shapes (k + 1) r i) : ∃ s ∈ shapes, s.id = i := by
  cases h with
  | step s h0 hmem hpar => exact ⟨s, hmem, rfl⟩

/-- Pigeonhole shortening: any chain can be shortened to at most
`shapes.length` steps (a shortest chain never repeats an intermediate id, and
every intermediate id belongs to a listed shape). -/
theorem reachesN_shorten {shapes : List ShapeData} :
    ∀ (n : Nat) {r i : String}, ReachesN shapes n r i →
      ∃ m, m ≤ shapes.length ∧ ReachesN shapes m r i := by
  intro n
  induction n using Nat.strong_induction_on with
  | _ n ih =>
    intro r i h
    by_cases hle : n ≤ shapes.length
    · exact ⟨n, hle, h⟩
    · push_neg at hle
      have hsplit : ∀ a : Fin n, ∃ j, ReachesN shapes (a.val + 1) r j ∧
          ReachesN shapes (n - (a.val + 1)) j i := by
        intro a
        have hcast : ReachesN shapes ((a.val + 1) + (n - (a.val + 1))) r i := by
          have e : (a.val + 1) + (n - (a.val + 1)) = n := by
            have := a.isLt
            omega
          rw [e]
          exact h
        exact reachesN_split _ hcast
      choose mid hmid1 hmid2 using hsplit
      have hmaps : ∀ a : Fin n, mid a ∈ (shapes.map (fun s => s.id)).toFinset := by
        intro a
        obtain ⟨s, hs, hsid⟩ := reachesN_succ_endpoint (hmid1 a)
        rw [List.mem_toFinset, ← hsid]
        exact List.mem_map_of_mem _ hs
      have hcard : ((shapes.map (fun s => s.id)).toFinset).card <
          (Finset.univ : Finset (Fin n)).card := by
        have h1 : ((shapes.map (fun s => s.id)).toFinset).card ≤ shapes.length := by
          refine le_trans (List.toFinset_card_le _) ?_
          simp
        simpa using lt_of_le_of_lt h1 hle
      obtain ⟨a, _, b, _, hab, heq⟩ :=
        Finset.exists_ne_map_eq_of_card_lt_of_maps_to hcard (fun a _ => hmaps a)
      rcases lt_or_gt_of_ne hab with hlt | hgt
      · have h2 : ReachesN shapes (n - (b.val + 1)) (mid a) i := by
          rw [heq]
          exact hmid2 b
        have hcomp := reachesN_trans (hmid1 a) h2
        refine ih _ ?_ hcomp
        have := b.isLt
        omega
      · have h2 : ReachesN shapes (n - (a.val + 1)) (mid b) i := by
          rw [← heq]
          exact hmid2 a
        have hcomp := reachesN_trans (hmid1 b) h2
        refine ih _ ?_ hcomp
        have := a.isLt
        omega

/-- Membership in the computed deletion set coincides with the spec-side
transitive closure. -/
theorem mem_idsToDelete_iff (st : AppState) (i : String) :
    i ∈ idsToDelete st ↔ InClosure st.shapes st.selectedIds i := by
  constructor
  · intro h
    rcases List.mem_append.mp h with h | h
    · exact ⟨i, h, Reaches.refl i⟩
    · obtain ⟨r, hr, hfd⟩ := List.mem_flatMap.mp h
      exact ⟨r, hr, reaches_of_mem_findDescendants _ r i hfd⟩
  · rintro ⟨r, hr, hreach⟩
    obtain ⟨n, hn⟩ := reachesN_of_reaches hreach
    obtain ⟨m, hmle, hm⟩ := reachesN_shorten n hn
    cases m with
    | zero =>
      cases hm
      exact List.mem_append.mpr (Or.inl hr)
    | succ m' =>
      refine List.mem_append.mpr (Or.inr ?_)
      refine List.mem_flatMap.mpr ⟨r, hr, ?_⟩
      exact mem_findDescendants_of_reachesN m' st.shapes.length r i hm hmle

/-- C6: `deleteSelected()` removes exactly the shapes whose id lies in the
transitive closure of the selected ids over the `parentId` relation (each
selected shape and all of its, possibly nested, descendants), keeps every
other shape (the result is a sublist of the original collection), and leaves
the selection empty. -/
theorem deleteSelected_closure (st : AppState) (s : ShapeData) :
    (deleteSelected st).selectedIds = [] ∧
    List.Sublist (deleteSelected st).shapes st.shapes ∧
    (s ∈ (deleteSelected st).shapes ↔
      s ∈ st.shapes ∧ ¬ InClosure st.shapes st.selectedIds s.id) := by
  refine ⟨rfl, List.filter_sublist _, ?_⟩
  show s ∈ st.shapes.filter (fun s => ¬ (idsToDelete st).contains s.id) ↔ _
  rw [List.mem_filter]
  constructor
  · rintro ⟨hmem, hdec⟩
    refine ⟨hmem, fun hclo => ?_⟩
    rw [decide_eq_true_eq] at hdec
    exact hdec (List.elem_iff.mpr ((mem_idsToDelete_iff st s.id).mpr hclo))
  · rintro ⟨hmem, hclo⟩
    refine ⟨hmem, ?_⟩
    rw [decide_eq_true_eq]
    intro hcont
    exact hclo ((mem_idsToDelete_iff st s.id).mp (List.elem_iff.mp hcont))

/-- Filtering with a predicate that fails on every member yields the empty
list. -/
theorem filter_false_of_mem {α} {p : α → Bool} :
    ∀ {l : List α}, (∀ a ∈ l, p a = false) → l.filter p = [] := by
  intro l h
  induction l with
  | nil => rfl
  | cons a t ih =>
    rw [List.filter_cons, h a (List.mem_cons_self a t)]
    exact ih (fun b hb => h b (List.mem_cons_of_mem a hb))

/-- Filtering with a predicate that holds on every member is the identity. -/
theorem filter_true_of_mem {α} {p : α → Bool} :
    ∀ {l : List α}, (∀ a ∈ l, p a = true) → l.filter p = l := by
  intro l h
  induction l with
  | nil => rfl
  | cons a t ih =>
    rw [List.filter_cons, h a (List.mem_cons_self a t)]
    simp only [if_true]
    rw [ih (fun b hb => h b (List.mem_cons_of_mem a hb))]

/-- Mapping with a function that fixes every member is the identity. -/
theorem map_id_of_mem {α} {f : α → α} :
    ∀ {l : List α}, (∀ a ∈ l, f a = a) → l.map f = l := by
  intro l h
  induction l with
  | nil => rfl
  | cons a t ih =>
    rw [List.map_cons, h a (List.mem_cons_self a t)]
    rw [ih (fun b hb => h b (List.mem_cons_of_mem a hb))]

/-- `find?` skips a prefix on which the predicate fails everywhere. -/
theorem find?_append_none {α} {p : α → Bool} {l l' : List α}
    (h : ∀ a ∈ l, p a = false) : (l ++ l').find? p = l'.find? p := by
  induction l with
  | nil => rfl
  | cons a t ih =>
    rw [List.cons_append, List.find?_cons, h a (List.mem_cons_self a t)]
    exact ih (fun b hb => h b (List.mem_cons_of_mem a hb))

/-- `groupSelected` on a scene whose selection is exactly the two distinct
ungrouped shapes `A` at world (1,0,0) and `B` at world (3,0,0): the new group
lands at the centroid (2,0,0), `A` and `B` are reparented with positions
rewritten to group-local coordinates, and the group becomes the selection. -/
theorem groupSelected_pair (st : AppState) (A B : ShapeData) (gid : String)
    (l1 l2 l3 : List ShapeData)
    (hshapes : st.shapes = l1 ++ A :: (l2 ++ B :: l3))
    (hnodup : (st.shapes.map (fun s => s.id)).Nodup)
    (hsel : st.selectedIds = [A.id, B.id])
    (hApos : A.position = ⟨1, 0, 0⟩)
    (hBpos : B.position = ⟨3, 0, 0⟩) :
    groupSelected gid st = { snapshot st with
      shapes := l1 ++ ({ A with parentId := some gid, position := ⟨-1, 0, 0⟩ } :: (l2 ++
        ({ B with parentId := some gid, position := ⟨1, 0, 0⟩ } :: (l3 ++
          [mkGroupShape gid ⟨2, 0, 0⟩])))),
      selectedIds := [gid] } := by
  have hnd : ((l1.map (fun s => s.id)) ++ (A.id :: ((l2.map (fun s => s.id)) ++
      (B.id :: (l3.map (fun s => s.id)))))).Nodup := by
    simpa [hshapes] using hnodup
  rw [List.nodup_append] at hnd
  obtain ⟨hnd1, hnd2, hdisj1⟩ := hnd
  rw [List.nodup_cons] at hnd2
  obtain ⟨hAnot, hnd3⟩ := hnd2
  rw [List.nodup_append] at hnd3
  obtain ⟨hnd4, hnd5, hdisj2⟩ := hnd3
  rw [List.nodup_cons] at hnd5
  obtain ⟨hBnot, hnd6⟩ := hnd5
  have hA_ne_B : A.id ≠ B.id := by
    intro h
    exact hAnot (List.mem_append.mpr (Or.inr (h ▸ List.mem_cons_self _ _)))
  have hl1A : ∀ s ∈ l1, s.id ≠ A.id := by
    intro s hs h
    exact hdisj1 (h ▸ List.mem_map_of_mem _ hs) (List.mem_cons_self _ _)
  have hl1B : ∀ s ∈ l1, s.id ≠ B.id := by
    intro s hs h
    exact hdisj1 (h ▸ List.mem_map_of_mem _ hs)
      (List.mem_cons_of_mem _ (List.mem_append.mpr (Or.inr (List.mem_cons_self _ _))))
  have hl2A : ∀ s ∈ l2, s.id ≠ A.id := by
    intro s hs h
    exact hAnot (List.mem_append.mpr (Or.inl (h ▸ List.mem_map_of_mem _ hs)))
  have hl2B : ∀ s ∈ l2, s.id ≠ B.id := by
    intro s hs h
    exact hdisj2 (h ▸ List.mem_map_of_mem _ hs) (List.mem_cons_self _ _)
  have hl3A : ∀ s ∈ l3, s.id ≠ A.id := by
    intro s hs h
    exact hAnot (List.mem_append.mpr (Or.inr (List.mem_cons_of_mem _
      (h ▸ List.mem_map_of_mem _ hs))))
  have hl3B : ∀ s ∈ l3, s.id ≠ B.id := by
    intro s hs h
    exact hBnot (h ▸ List.mem_map_of_mem _ hs)
  have hcontA : st.selectedIds.contains A.id = true := by
    rw [hsel]; simp
  have hcontB : st.selectedIds.contains B.id = true := by
    rw [hsel]; simp
  have hcontl1 : ∀ s ∈ l1, st.selectedIds.contains s.id = false := by
    intro s hs
    rw [hsel]
    simp [hl1A s hs, hl1B s hs]
  have hcontl2 : ∀ s ∈ l2, st.selectedIds.contains s.id = false := by
    intro s hs
    rw [hsel]
    simp [hl2A s hs, hl2B s hs]
  have hcontl3 : ∀ s ∈ l3, st.selectedIds.contains s.id = false := by
    intro s hs
    rw [hsel]
    simp [hl3A s hs, hl3B s hs]
  have hfilterSel : st.shapes.filter (fun s => st.selectedIds.contains s.id) = [A, B] := by
    rw [hshapes, List.filter_append, filter_false_of_mem hcontl1, List.filter_cons]
    simp only [hcontA, if_true]
    rw [List.filter_append, filter_false_of_mem hcontl2, List.filter_cons]
    simp only [hcontB, if_true]
    rw [filter_false_of_mem hcontl3]
    rfl
  have hlen : ¬ (st.selectedIds.length < 2) := by rw [hsel]; simp
  unfold groupSelected
  rw [if_neg hlen]
  simp only [hfilterSel]
  simp only [List.foldl_cons, List.foldl_nil, List.length_cons, List.length_nil, hApos, hBpos]
  norm_num
  rw [hshapes]
  simp only [List.map_append, List.map_cons, List.append_assoc, List.cons_append]
  congr 1
  · exact map_id_of_mem (fun s hs => if_neg (by rw [hsel]; simp [hl1A s hs, hl1B s hs]))
  congr 1
  · rw [if_pos (show A.id ∈ st.selectedIds by rw [hsel]; simp)]
    simp [hApos]
    norm_num
  congr 1
  · exact map_id_of_mem (fun s hs => if_neg (by rw [hsel]; simp [hl2A s hs, hl2B s hs]))
  congr 1
  · rw [if_pos (show B.id ∈ st.selectedIds by rw [hsel]; simp)]
    simp [hBpos]
    norm_num
  congr 1
  exact map_id_of_mem (fun s hs => if_neg (by rw [hsel]; simp [hl3A s hs, hl3B s hs]))

/-- `ungroupSelected` on a scene whose selection is exactly a group at (2,0,0)
holding `A` at local (-1,0,0) and `B` at local (1,0,0): the group shape is
removed, both children lose their `parentId` and return to world coordinates,
and the children become the selection. -/
theorem ungroupSelected_pair (st1 : AppState) (A B : ShapeData) (gid : String)
    (l1 l2 l3 : List ShapeData)
    (hshapes1 : st1.shapes = l1 ++ ({ A with parentId := some gid, position := ⟨-1, 0, 0⟩ } :: (l2 ++
      ({ B with parentId := some gid, position := ⟨1, 0, 0⟩ } :: (l3 ++
        [mkGroupShape gid ⟨2, 0, 0⟩])))))
    (hsel1 : st1.selectedIds = [gid])
    (hApos : A.position = ⟨1, 0, 0⟩) (hApar : A.parentId = none)
    (hBpos : B.position = ⟨3, 0, 0⟩) (hBpar : B.parentId = none)
    (hAid : A.id ≠ gid) (hBid : B.id ≠ gid)
    (hl : ∀ s ∈ l1 ++ (l2 ++ l3), s.id ≠ gid ∧ s.parentId ≠ some gid) :
    ungroupSelected st1 = { snapshot st1 with
      shapes := l1 ++ (A :: (l2 ++ (B :: l3)))
      selectedIds := [A.id, B.id] } := by
  have hfind : st1.shapes.find? (fun s => s.id = gid) = some (mkGroupShape gid ⟨2, 0, 0⟩) := by
    rw [hshapes1]
    rw [find?_append_none (fun s hs => by
      simp [(hl s (List.mem_append.mpr (Or.inl hs))).1])]
    rw [List.find?_cons_of_neg _ (by simp [hAid])]
    rw [find?_append_none (fun s hs => by
      simp [(hl s (List.mem_append.mpr (Or.inr (List.mem_append.mpr (Or.inl hs))))).1])]
    rw [List.find?_cons_of_neg _ (by simp [hBid])]
    rw [find?_append_none (fun s hs => by
      simp [(hl s (List.mem_append.mpr (Or.inr (List.mem_append.mpr (Or.inr hs))))).1])]
    rw [List.find?_cons_of_pos _ (by simp [mkGroupShape])]
  simp only [ungroupSelected, hsel1, hfind]
  rw [if_pos (by simp [mkGroupShape])]
  simp only [AppState.mk.injEq]
  refine ⟨?_, ?_, trivial, trivial, trivial, trivial⟩
  · norm_num [mkGroupShape]
    have hmap : st1.shapes.map
        (fun s =>
          if s.parentId = some gid then
            ({ s with
                parentId := none
                position := ⟨s.position.x + 2, s.position.y, s.position.z⟩ } : ShapeData)
          else s) =
        l1 ++ (A :: (l2 ++ (B :: (l3 ++ [mkGroupShape gid ⟨2, 0, 0⟩])))) := by
      rw [hshapes1]
      simp only [List.map_append, List.map_cons, List.append_assoc, List.cons_append]
      congr 1
      · exact map_id_of_mem (fun s hs =>
          if_neg (hl s (List.mem_append.mpr (Or.inl hs))).2)
      congr 1
      · norm_num [ShapeData.ext_iff, V3.ext_iff, hApar, hApos]
      congr 1
      · exact map_id_of_mem (fun s hs =>
          if_neg (hl s (List.mem_append.mpr (Or.inr (List.mem_append.mpr (Or.inl hs))))).2)
      congr 1
      · norm_num [ShapeData.ext_iff, V3.ext_iff, hBpar, hBpos]
      congr 1
      exact map_id_of_mem (fun s hs =>
        if_neg (hl s (List.mem_append.mpr (Or.inr (List.mem_append.mpr (Or.inr hs))))).2)
    rw [hmap]
    simp only [List.filter_append, List.filter_cons]
    rw [filter_true_of_mem (fun s hs => by
      simp [(hl s (List.mem_append.mpr (Or.inl hs))).1])]
    simp [hAid, hBid, mkGroupShape]
    rw [filter_true_of_mem (fun s hs => by
      simp [(hl s (List.mem_append.mpr (Or.inr (List.mem_append.mpr (Or.inl hs))))).1])]
    rw [filter_true_of_mem (fun s hs => by
      simp [(hl s (List.mem_append.mpr (Or.inr (List.mem_append.mpr (Or.inr hs))))).1])]
  · rw [hshapes1]
    rw [List.filter_append]
    rw [filter_false_of_mem (fun s hs => by
      simp [mkGroupShape, (hl s (List.mem_append.mpr (Or.inl hs))).2])]
    rw [List.filter_cons]
    simp only [mkGroupShape]
    simp only [decide_True, if_true, List.nil_append]
    rw [List.filter_append]
    rw [filter_false_of_mem (fun s hs => by
      simp [mkGroupShape, (hl s (List.mem_append.mpr (Or.inr (List.mem_append.mpr (Or.inl hs))))).2])]
    rw [List.filter_cons]
    simp only [decide_True, if_true, List.nil_append]
    rw [List.filter_append]
    rw [filter_false_of_mem (fun s hs => by
      simp [mkGroupShape, (hl s (List.mem_append.mpr (Or.inr (List.mem_append.mpr (Or.inr hs))))).2])]
    simp [mkGroupShape]

/-- C2: in any scene containing ungrouped shapes A at world (1,0,0) and B at
world (3,0,0) (ids unique, the fresh group id unused), selecting exactly A and
B and calling `groupSelected()` creates a group G of type `group` at the
centroid (2,0,0), reparents A to G at local (-1,0,0) and B at local (1,0,0),
and selects G; calling `ungroupSelected()` then removes G, clears both
parentIds, restores A to (1,0,0) and B to (3,0,0) exactly (the collection
returns to its original value), and selects A and B. -/
theorem group_ungroup_round_trip (st : AppState) (A B : ShapeData) (gid : String)
    (l1 l2 l3 : List ShapeData)
    (hshapes : st.shapes = l1 ++ A :: (l2 ++ B :: l3))
    (hnodup : (st.shapes.map (fun s => s.id)).Nodup)
    (hsel : st.selectedIds = [A.id, B.id])
    (hApos : A.position = ⟨1, 0, 0⟩) (hApar : A.parentId = none)
    (hBpos : B.position = ⟨3, 0, 0⟩) (hBpar : B.parentId = none)
    (hfresh : ∀ s ∈ st.shapes, s.id ≠ gid ∧ s.parentId ≠ some gid) :
    (mkGroupShape gid ⟨2, 0, 0⟩).type = ShapeType.group ∧
    (mkGroupShape gid ⟨2, 0, 0⟩).position = ⟨2, 0, 0⟩ ∧
    (groupSelected gid st).shapes =
      l1 ++ ({ A with parentId := some gid, position := ⟨-1, 0, 0⟩ } :: (l2 ++
        ({ B with parentId := some gid, position := ⟨1, 0, 0⟩ } :: (l3 ++
          [mkGroupShape gid ⟨2, 0, 0⟩])))) ∧
    (groupSelected gid st).selectedIds = [gid] ∧
    (ungroupSelected (groupSelected gid st)).shapes = st.shapes ∧
    (ungroupSelected (groupSelected gid st)).selectedIds = [A.id, B.id] := by
  have hAmem : A ∈ st.shapes := by
    rw [hshapes]
    exact List.mem_append.mpr (Or.inr (List.mem_cons_self _ _))
  have hBmem : B ∈ st.shapes := by
    rw [hshapes]
    exact List.mem_append.mpr (Or.inr (List.mem_cons_of_mem _
      (List.mem_append.mpr (Or.inr (List.mem_cons_self _ _)))))
  have hg := groupSelected_pair st A B gid l1 l2 l3 hshapes hnodup hsel hApos hBpos
  have hu := ungroupSelected_pair (groupSelected gid st) A B gid l1 l2 l3
    (by rw [hg]) (by rw [hg]) hApos hApar hBpos hBpar
    (hfresh A hAmem).1 (hfresh B hBmem).1
    (fun s hs => hfresh s (by
      rw [hshapes]
      rcases List.mem_append.mp hs with h | h'
      · exact List.mem_append.mpr (Or.inl h)
      · rcases List.mem_append.mp h' with h2 | h3
        · exact List.mem_append.mpr (Or.inr (List.mem_cons_of_mem _
            (List.mem_append.mpr (Or.inl h2))))
        · exact List.mem_append.mpr (Or.inr (List.mem_cons_of_mem _
            (List.mem_append.mpr (Or.inr (List.mem_cons_of_mem _ h3)))))))
  refine ⟨rfl, rfl, ?_, ?_, ?_, ?_⟩
  · rw [hg]
  · rw [hg]
  · rw [hu, hshapes]
  · rw [hu]

/-- C2 witness: the two-box scene `stTwo` (A at (1,0,0), B at (3,0,0), both
selected) grouped under fresh id "G" and ungrouped again returns to the
original collection with A and B selected. -/
theorem group_ungroup_round_trip_witness :
    (groupSelected "G" stTwo).selectedIds = ["G"] ∧
    (ungroupSelected (groupSelected "G" stTwo)).shapes = stTwo.shapes ∧
    (ungroupSelected (groupSelected "G" stTwo)).selectedIds = ["A", "B"] := by
  obtain ⟨_, _, _, h4, h5, h6⟩ :=
    group_ungroup_round_trip stTwo (mkBox "A" ⟨1, 0, 0⟩) (mkBox "B" ⟨3, 0, 0⟩) "G"
      [] [] [] rfl (by decide) rfl rfl rfl rfl rfl (by decide)
  exact ⟨h4, h5, h6⟩

/-- For angles in [0, π], `arcsin ∘ cos` is the complement. -/
theorem key_arcsin_cos (x : ℝ) (h0 : 0 ≤ x) (hpi : x ≤ Real.pi) :
    Real.arcsin (Real.cos x) = Real.pi / 2 - x := by
  rw [← Real.sin_pi_div_two_sub]
  exact Real.arcsin_sin (by linarith) (by linarith)

/-- The exact altitude at (lat 0, lon 0, day 81, 12:00 UTC): the declination
is 0 and, because the equation-of-time correction is −7.53 minutes there, the
hour angle is −1.8825° and the altitude is π/2 − 1.8825° in radians. -/
theorem sunPosition_equinox_noon_altitude :
    (getSunPosition 0 0 81 12).altitude = Real.pi / 2 - 1.8825 * Real.pi / 180 := by
  simp only [getSunPosition]
  norm_num [toRad, Real.sin_zero, Real.cos_zero]
  have h1 : (-(753 / 400 * Real.pi) / 180 : ℝ) = -(753 / 400 * Real.pi / 180) := by ring
  rw [h1, Real.cos_neg]
  rw [key_arcsin_cos (753 / 400 * Real.pi / 180) (by positivity)
    (by nlinarith [Real.pi_pos])]

/-- C8: `getSunPosition(0, 0, 81, 12)` returns declination exactly 0 and an
altitude of approximately 90 degrees: exactly 90° − 1.8825° = 88.1175° (the
−7.53-minute equation-of-time correction shifts solar noon), within 2° of the
zenith. -/
theorem sunPosition_equinox_noon :
    (getSunPosition 0 0 81 12).declination = 0 ∧
    toDeg (getSunPosition 0 0 81 12).altitude = 90 - 1.8825 ∧
    |toDeg (getSunPosition 0 0 81 12).altitude - 90| < 2 := by
  have hdeg : toDeg (getSunPosition 0 0 81 12).altitude = 90 - 1.8825 := by
    rw [sunPosition_equinox_noon_altitude]
    rw [toDeg]
    field_simp
    ring
  refine ⟨?_, hdeg, ?_⟩
  · simp only [getSunPosition]
    norm_num [toRad, Real.sin_zero]
  · rw [hdeg, abs_lt]
    constructor <;> norm_num

end ArchMass
